import Mathlib

/-!
# Verification of the audio capture pipeline (src/main.rs)

A shallow embedding of the capture pipeline of the waveform viewer:
the bounded history buffer written by the stream callback, the sample
conversion the callback performs, and the `AppState` controller with its
`start_stream` / `stop_stream` / device-selection operations.

Samples are modelled as rationals: the buffer code only moves values
(push / drain, never arithmetic), and the three conversions the source
instantiates (`f32 → f32`, `i16 → f32`, `u16 → f32` via the std `Into`
bound) are exact on every representable input, so ℚ carries them without
loss. Every `unwrap` / `panic!` in the source is modelled as an explicit
`panicked` outcome, distinct from a normally returned value.
-/

namespace FFTAnalyzer

/-- The history-buffer capacity hardcoded in the callback
(src/main.rs:73-75): the buffer is trimmed whenever its length exceeds 2048. -/
def capacity : Nat := 2048

/-- The last `n` elements of a list, in order. -/
def lastN (n : Nat) (l : List α) : List α :=
  l.drop (l.length - n)

/-- One buffer write under the callback's discipline (src/main.rs:72-76):
push the sample, then if the length exceeds the capacity drain
`len - cap` elements from the front. Parametric in the capacity so the
spec's capacity-4 scenario is expressible; the source fixes it to
`capacity = 2048`. -/
def appendCap (cap : Nat) (buf : List ℚ) (s : ℚ) : List ℚ :=
  if (buf ++ [s]).length > cap then
    (buf ++ [s]).drop ((buf ++ [s]).length - cap)
  else
    buf ++ [s]

/-- The source's buffer write: `appendCap` at the hardcoded capacity. -/
def append (buf : List ℚ) (s : ℚ) : List ℚ :=
  appendCap capacity buf s

/-- A sequence of buffer writes, oldest first. -/
def appendAll (cap : Nat) (buf : List ℚ) (xs : List ℚ) : List ℚ :=
  xs.foldl (appendCap cap) buf

/-- The sample encodings the source distinguishes (src/main.rs:37-41):
`F32`, `I16` and `U16` each get a stream; every other `cpal::SampleFormat`
falls into the wildcard arm. -/
inductive SampleFormat where
  | f32
  | i16
  | u16
  | other
  deriving DecidableEq, Inhabited

/-- A device-native sample as delivered to the data callback, for the three
encodings the source builds streams for. The carried value is exact: every
`i16` / `u16` value and every `f32` value occurring here converts to `f32`
without rounding, so a rational carries it faithfully. `i16 x` is meaningful
for `-32768 ≤ x ≤ 32767`, `u16 x` for `x ≤ 65535`. -/
inductive NativeSample where
  | f32 (x : ℚ)
  | i16 (x : Int)
  | u16 (x : Nat)
  deriving DecidableEq, Inhabited

/-- The conversion the callback applies to a raw sample: `frame[0].into()`
(src/main.rs:72) under the bound `T : Into<f32>` (src/main.rs:64). At the
three instantiations the source makes (src/main.rs:38-40) this is the std
numeric conversion: identity on `f32`, and the exact value-preserving casts
`i16 → f32` and `u16 → f32`. No scaling or offsetting is performed. -/
def normalize : NativeSample → ℚ
  | .f32 x => x
  | .i16 x => (x : ℚ)
  | .u16 x => (x : ℚ)

/-- Fuel-driven worker for `chunks`; the fuel only forces structural
termination and is irrelevant once it is at least the list length. -/
def chunksAux (fuel : Nat) (n : Nat) : List α → List (List α)
  | [] => []
  | x :: xs =>
    match fuel with
    | 0 => []
    | fuel + 1 => (x :: xs.take (n - 1)) :: chunksAux fuel n (xs.drop (n - 1))

/-- Rust's `slice::chunks(n)` (src/main.rs:71) for `n ≥ 1`: consecutive
pieces of `n` elements, the last possibly shorter, all nonempty.
(`chunks(0)` panics in Rust; this model is only invoked with the stream's
channel count, and theorems assume it is positive.) -/
def chunks (n : Nat) (l : List α) : List (List α) :=
  chunksAux l.length n l

/-- One invocation of the input stream's data callback (src/main.rs:69-78):
for each frame, i.e. each chunk of `channels` interleaved samples, push the
first channel's converted sample and trim the buffer to `capacity`; the
other channels of the frame are never read. -/
def dataCallback (channels : Nat) (data : List NativeSample)
    (buffer : List ℚ) : List ℚ :=
  (chunks channels data).foldl (fun buf frame => append buf (normalize frame.headI)) buffer

/-- `cpal::StreamConfig` data relevant here, as read from a device's
default input configuration (src/main.rs:29-32). -/
structure InputConfig where
  channels : Nat
  sample_format : SampleFormat
  deriving DecidableEq, Inhabited

/-- A capture device as the controller observes it. `name` models
`dev.name()` (`none` = the call errors, src/main.rs:91-94);
`default_input_config` models the result of `device.default_input_config()`
(`none` = the host reports an error, so the `unwrap` at src/main.rs:29
panics); `build_ok` / `play_ok` model whether the host lets
`build_input_stream` (src/main.rs:81) and `stream.play()` (src/main.rs:44)
succeed — their `unwrap`s panic otherwise. -/
structure Device where
  name : Option String
  default_input_config : Option InputConfig
  build_ok : Bool
  play_ok : Bool
  deriving DecidableEq, Inhabited

/-- The result of a controller operation: the updated state, or a panic.
The source's operations return nothing and fail only by panicking
(`unwrap` / `panic!`), so there is no returned-error constructor to model. -/
inductive Outcome (α : Type) where
  | ok (a : α)
  | panicked (msg : String)
  deriving DecidableEq

/-- Whether the operation completed without panicking. -/
def Outcome.isOk : Outcome α → Bool
  | .ok _ => true
  | .panicked _ => false

/-- The `AppState` struct (src/main.rs:6-12). `audio_data` is the history
buffer behind the `Arc<RwLock<..>>`; `_stream` holds the id of the retained
stream. `live` and `nextId` are accounting the struct does not store:
`live` lists the ids of every cpal `Stream` object currently alive (created
by `build_input_stream` and not yet dropped) and `nextId` supplies fresh
ids, so that claims about "at most one live stream" are about object
lifetimes rather than about the `Option` type. -/
structure AppState where
  devices : List Device
  selected_device : Nat
  audio_data : List ℚ
  _stream : Option Nat
  is_playing : Bool
  live : List Nat
  nextId : Nat
  deriving DecidableEq

/-- `AppState::new` (src/main.rs:15-25). Device enumeration itself is a host
interaction, so the enumerated list is a parameter; the field initialisers
mirror the source. -/
def AppState.new (devices : List Device) : AppState :=
  { devices := devices
    selected_device := 0
    audio_data := []
    _stream := none
    is_playing := false
    live := []
    nextId := 0 }

/-- `AppState::start_stream` (src/main.rs:27-47), with each failing `unwrap`
and the wildcard `panic!` arm modelled as `Outcome.panicked`. The three
supported formats all take the same controller path (they differ only in
the callback's sample type); on success the new stream is retained and the
assignment `self._stream = Some(stream)` drops the previously retained
stream, which therefore leaves `live`. -/
def start_stream (s : AppState) : Outcome AppState :=
  match s.devices[s.selected_device]? with
  | none => .panicked "index out of bounds"
  | some device =>
    match device.default_input_config with
    | none => .panicked "default_input_config failed"
    | some config =>
      match config.sample_format with
      | .f32 | .i16 | .u16 =>
        if device.build_ok then
          if device.play_ok then
            .ok { s with
                  _stream := some s.nextId
                  is_playing := true
                  live :=
                    match s._stream with
                    | some old => (s.nextId :: s.live).erase old
                    | none => s.nextId :: s.live
                  nextId := s.nextId + 1 }
          else .panicked "stream play failed"
        else .panicked "build_input_stream failed"
      | .other => .panicked "sample format is not supported"

/-- `AppState::stop_stream` (src/main.rs:49-54): take and drop the retained
stream if any (it leaves `live`), then clear the flag. Total — no panic. -/
def stop_stream (s : AppState) : AppState :=
  match s._stream with
  | some old => { s with _stream := none, is_playing := false, live := s.live.erase old }
  | none => { s with is_playing := false }

/-- Device selection in `AppState::update` (src/main.rs:90-105): the combo
box writes the new index into `selected_device`, and when the selection
changed while playing the controller stops and restarts the stream. -/
def select_device (s : AppState) (i : Nat) : Outcome AppState :=
  if ({ s with selected_device := i } : AppState).is_playing then
    start_stream (stop_stream { s with selected_device := i })
  else
    .ok { s with selected_device := i }

/-- The implicit controller invariant: the `is_playing` flag is set exactly
when a stream is retained (src/main.rs:10-11). -/
def playingMatchesStream (s : AppState) : Prop :=
  s.is_playing = s._stream.isSome

/-- The full state invariant: the live stream objects are exactly the
retained one, live ids are below the fresh-id counter, and the flag matches
the retained stream. -/
def Inv (s : AppState) : Prop :=
  s.live = s._stream.toList ∧ (∀ i ∈ s.live, i < s.nextId)
    ∧ playingMatchesStream s

/-! ## Basic buffer lemmas -/

theorem appendCap_length (cap : Nat) (b : List ℚ) (s : ℚ) :
    (appendCap cap b s).length = min (b.length + 1) cap := by
  unfold appendCap
  by_cases h : (b ++ [s]).length > cap
  · rw [if_pos h]
    simp only [List.length_drop, List.length_append, List.length_singleton] at *
    omega
  · rw [if_neg h]
    simp only [List.length_append, List.length_singleton] at *
    omega

theorem appendCap_le (cap : Nat) (b : List ℚ) (s : ℚ) :
    (appendCap cap b s).length ≤ cap := by
  rw [appendCap_length]; omega

theorem appendAll_le (cap : Nat) (xs : List ℚ) (b : List ℚ)
    (hb : b.length ≤ cap) : (appendAll cap b xs).length ≤ cap := by
  induction xs generalizing b with
  | nil => exact hb
  | cons x xs ih =>
      simpa [appendAll, List.foldl_cons] using
        ih (appendCap cap b x) (appendCap_le cap b x)

theorem appendCap_eq_lastN (cap : Nat) (b : List ℚ) (s : ℚ) :
    appendCap cap b s = lastN (min (b.length + 1) cap) (b ++ [s]) := by
  unfold appendCap lastN
  by_cases h : (b ++ [s]).length > cap
  · rw [if_pos h]
    congr 1
    simp only [List.length_append, List.length_singleton] at *
    omega
  · rw [if_neg h]
    have hd : (b ++ [s]).length - min (b.length + 1) cap = 0 := by
      simp only [List.length_append, List.length_singleton] at *
      omega
    rw [hd, List.drop_zero]

theorem chunksAux_congr (n : Nat) :
    ∀ (f1 f2 : Nat) (l : List α), l.length ≤ f1 → l.length ≤ f2 →
      chunksAux f1 n l = chunksAux f2 n l := by
  intro f1
  induction f1 with
  | zero =>
      intro f2 l h1 _
      cases l with
      | nil => cases f2 <;> rfl
      | cons x xs => simp at h1
  | succ f1 ih =>
      intro f2 l h1 h2
      cases l with
      | nil => cases f2 <;> rfl
      | cons x xs =>
          cases f2 with
          | zero => simp at h2
          | succ f2 =>
              simp only [chunksAux]
              congr 1
              exact ih f2 (xs.drop (n - 1))
                (by simp only [List.length_drop, List.length_cons] at *; omega)
                (by simp only [List.length_drop, List.length_cons] at *; omega)

theorem chunks_cons (n : Nat) (x : α) (xs : List α) :
    chunks n (x :: xs) = (x :: xs.take (n - 1)) :: chunks n (xs.drop (n - 1)) := by
  unfold chunks
  simp only [List.length_cons, chunksAux]
  congr 1
  exact chunksAux_congr n xs.length (xs.drop (n - 1)).length (xs.drop (n - 1))
    (by simp only [List.length_drop]; omega) (le_refl _)

theorem chunks_flatten (c : Nat) (hc : 0 < c) :
    ∀ frames : List (List α), (∀ f ∈ frames, f.length = c) →
      chunks c frames.flatten = frames := by
  intro frames
  induction frames with
  | nil => intro _; rfl
  | cons f rest ih =>
      intro hl
      have hf : f.length = c := hl f (by simp)
      cases f with
      | nil => simp at hf; omega
      | cons y ys =>
          have hys : ys.length = c - 1 := by
            simp only [List.length_cons] at hf; omega
          rw [List.flatten_cons, List.cons_append, chunks_cons]
          rw [List.take_left' hys, List.drop_left' hys]
          rw [ih (fun g hg => hl g (by simp [hg]))]

theorem dataCallback_eq_appendAll (c : Nat) (data : List NativeSample)
    (buf : List ℚ) :
    dataCallback c data buf
      = appendAll capacity buf ((chunks c data).map (fun f => normalize f.headI)) := by
  unfold dataCallback appendAll append
  rw [List.foldl_map]

theorem appendAll_no_evict (cap : Nat) (b xs : List ℚ)
    (h : b.length + xs.length ≤ cap) : appendAll cap b xs = b ++ xs := by
  induction xs generalizing b with
  | nil => simp [appendAll]
  | cons x xs ih =>
      have hb : (b ++ [x]).length ≤ cap := by
        simp [List.length_append]; simp at h; omega
      have hstep : appendCap cap b x = b ++ [x] := by
        unfold appendCap
        simp only [if_neg (by omega : ¬ (b ++ [x]).length > cap)]
      calc appendAll cap b (x :: xs)
          = appendAll cap (appendCap cap b x) xs := rfl
        _ = appendAll cap (b ++ [x]) xs := by rw [hstep]
        _ = (b ++ [x]) ++ xs := by
              apply ih
              simp [List.length_append] at h ⊢
              omega
        _ = b ++ (x :: xs) := by simp

end FFTAnalyzer

namespace FFTAnalyzer

theorem start_ok_spec {s s' : AppState} (h : start_stream s = .ok s') :
    s' = { s with
           _stream := some s.nextId
           is_playing := true
           live :=
             match s._stream with
             | some old => (s.nextId :: s.live).erase old
             | none => s.nextId :: s.live
           nextId := s.nextId + 1 } := by
  unfold start_stream at h
  repeat' split at h
  all_goals first
    | exact Outcome.noConfusion h
    | exact (((Outcome.ok.injEq _ _).mp h).symm)

theorem stop_stream_stream (s : AppState) : (stop_stream s)._stream = none := by
  unfold stop_stream
  cases s._stream <;> rfl

theorem stop_stream_playing (s : AppState) : (stop_stream s).is_playing = false := by
  unfold stop_stream
  cases s._stream <;> rfl

theorem stop_stream_audio (s : AppState) :
    (stop_stream s).audio_data = s.audio_data := by
  unfold stop_stream
  cases s._stream <;> rfl

theorem Inv_stop {s : AppState} (hs : Inv s) : Inv (stop_stream s) := by
  obtain ⟨hlive, hfresh, _⟩ := hs
  unfold Inv playingMatchesStream stop_stream
  cases hst : s._stream with
  | none =>
      rw [hst] at hlive
      simp only [Option.toList] at hlive
      simp [hst, hlive]
  | some old =>
      rw [hst] at hlive
      simp only [Option.toList] at hlive
      simp [hst, hlive, List.erase_cons]

theorem Inv_start {s s' : AppState} (hs : Inv s) (h : start_stream s = .ok s') :
    s'.live = [s.nextId] ∧ Inv s' := by
  obtain ⟨hlive, hfresh, _⟩ := hs
  have hspec := start_ok_spec h
  subst hspec
  unfold Inv playingMatchesStream
  cases hst : s._stream with
  | none =>
      rw [hst] at hlive
      simp only [Option.toList] at hlive
      simp [hst, hlive]
  | some old =>
      rw [hst] at hlive
      simp only [Option.toList] at hlive
      have hold : old < s.nextId := hfresh old (by simp [hlive])
      have herase : (s.nextId :: s.live).erase old = [s.nextId] := by
        rw [hlive, List.erase_cons, List.erase_cons]
        simp [Nat.ne_of_gt hold]
      simp [hst, herase]

end FFTAnalyzer

namespace FFTAnalyzer

/-- A device with a supported format whose host interactions all succeed. -/
def fDevice : Device :=
  { name := some "mic"
    default_input_config := some { channels := 2, sample_format := .f32 }
    build_ok := true
    play_ok := true }

/-- A device whose default input configuration reports an encoding outside
the three the source supports (e.g. cpal's I32). -/
def unsupportedDevice : Device :=
  { name := some "mic"
    default_input_config := some { channels := 2, sample_format := .other }
    build_ok := true
    play_ok := true }

/-- An Active session over two good devices: stream 0 retained and live. -/
def activeState : AppState :=
  { devices := [fDevice, fDevice]
    selected_device := 0
    audio_data := []
    _stream := some 0
    is_playing := true
    live := [0]
    nextId := 1 }

/-- `activeState` after `start_stream` runs on it again: the retained
stream is replaced by the fresh stream 1 and stream 0 has been dropped. -/
def restartedState : AppState :=
  { activeState with _stream := some 1, live := [1], nextId := 2 }

/-- `activeState` after switching to device 1 while playing: the restart
retains fresh stream 1 and keeps the buffer. -/
def switchedState : AppState :=
  { activeState with selected_device := 1, _stream := some 1, live := [1], nextId := 2 }

end FFTAnalyzer

namespace FFTAnalyzer

/-- C1 counterexample: the signed-16-bit variant does not map its extremal
native value to +1.0 (nor anywhere near it, so "nearest representable
bound" does not save it): `frame[0].into()` converts `i16::MAX = 32767` to
the float `32767.0`, outside [-1.0, 1.0]; likewise the unsigned-16-bit
midpoint `32768` maps to `32768.0`, not approximately 0.0. -/
theorem normalize_i16_not_normalized :
    normalize (.i16 32767) = 32767 ∧ ¬ normalize (.i16 32767) ≤ 1
      ∧ normalize (.u16 32768) = 32768 := by
  refine ⟨rfl, by norm_num [normalize], rfl⟩

/-- C1 (amended): the 32-bit-float variant of the conversion is the
identity; the 16-bit variants are raw lossless numeric conversions with no
scaling or offset, so the extremal native values map to -32768.0 / 32767.0
(signed) and 0.0 / 65535.0 (unsigned), the signed midpoint 0 maps to 0.0,
and the unsigned midpoint 32768 maps to 32768.0 — integer samples are not
mapped into [-1.0, 1.0]. -/
theorem normalize_exact_conversion :
    (∀ x : ℚ, normalize (.f32 x) = x)
    ∧ normalize (.i16 (-32768)) = -32768
    ∧ normalize (.i16 0) = 0
    ∧ normalize (.i16 32767) = 32767
    ∧ normalize (.u16 0) = 0
    ∧ normalize (.u16 32768) = 32768
    ∧ normalize (.u16 65535) = 65535 := by
  refine ⟨fun x => rfl, ?_, ?_, ?_, ?_, ?_, ?_⟩ <;> norm_num [normalize]

/-- C2: starting from the empty buffer, any sequence of appends leaves the
buffer length at most the capacity 2048, and a single append from any
buffer state lands at or below the capacity, so the invariant is preserved
by every append. -/
theorem history_length_le_capacity :
    (∀ xs : List ℚ, (appendAll capacity [] xs).length ≤ capacity)
    ∧ ∀ (b : List ℚ) (s : ℚ), (append b s).length ≤ capacity :=
  ⟨fun xs => appendAll_le capacity xs [] (by simp),
   fun b s => appendCap_le capacity b s⟩

/-- C3: an append yields exactly the last `min (len b + 1) cap` elements of
`b ++ [s]` — retained samples keep their relative order with the new sample
at the end and only the oldest evicted — both for the source's capacity
2048 and for any capacity, and the spec's capacity-4 scenario holds. -/
theorem append_batch_fifo :
    (∀ (b : List ℚ) (s : ℚ),
        append b s = lastN (min (b.length + 1) capacity) (b ++ [s]))
    ∧ (∀ (cap : Nat) (b : List ℚ) (s : ℚ),
        appendCap cap b s = lastN (min (b.length + 1) cap) (b ++ [s]))
    ∧ appendAll 4 [] [1, 2, 3] = [(1 : ℚ), 2, 3]
    ∧ appendAll 4 [(1 : ℚ), 2, 3] [4] = [(1 : ℚ), 2, 3, 4]
    ∧ appendAll 4 [(1 : ℚ), 2, 3, 4] [5] = [(2 : ℚ), 3, 4, 5] :=
  ⟨fun b s => appendCap_eq_lastN capacity b s,
   appendCap_eq_lastN, by decide, by decide, by decide⟩

/-- C4: with an empty enumerated device list, `start_stream` indexes
`self.devices[0]` on an empty vector and panics with an index-out-of-bounds
rather than returning a defined error. -/
theorem start_empty_devices_panics :
    start_stream (AppState.new []) = .panicked "index out of bounds" := rfl

/-- C5: when the selected device's default input configuration reports an
encoding outside {F32, I16, U16}, `start_stream` hits the wildcard match
arm and panics ("sample format is not supported") instead of returning an
`UnsupportedFormatError` to its caller. -/
theorem start_unsupported_format_panics :
    start_stream (AppState.new [unsupportedDevice])
      = .panicked "sample format is not supported" := rfl

/-- C6 counterexample: `start_stream` has no already-Active guard — called
on an Active session it completes without any error. -/
theorem start_while_active_no_error :
    activeState.is_playing = true ∧ (start_stream activeState).isOk = true := by
  exact ⟨rfl, rfl⟩

/-- C6 (amended): calling start() on an Active session yields no error; it
opens a fresh stream, retains it, and the assignment drops the previously
retained stream, so after the call exactly one stream is live — the new
one — and the old stream is no longer live. -/
theorem start_replaces_stream (s s' : AppState) (hs : Inv s)
    (h : start_stream s = .ok s') :
    s'._stream = some s.nextId ∧ s'.live = [s.nextId]
      ∧ (∀ old, s._stream = some old → old ∉ s'.live) ∧ Inv s' := by
  obtain ⟨hl, hInv⟩ := Inv_start hs h
  refine ⟨by rw [start_ok_spec h], hl, ?_, hInv⟩
  intro old hold
  have hmem : old ∈ s.live := by rw [hs.1, hold]; simp
  have : old < s.nextId := hs.2.1 old hmem
  rw [hl]
  simp
  omega

theorem start_replaces_stream_witness :
    restartedState._stream = some 1 ∧ restartedState.live = [1] :=
  ⟨(start_replaces_stream activeState restartedState
      (by unfold Inv playingMatchesStream; decide) (by decide)).1,
   (start_replaces_stream activeState restartedState
      (by unfold Inv playingMatchesStream; decide) (by decide)).2.1⟩

/-- C7: the history buffer survives stop, start and the device-switch
stop-then-start unchanged — none of them touch `audio_data` — and a new
stream's samples append after whatever remained (when no eviction is
forced, appending a block to a remaining buffer is exactly concatenation). -/
theorem buffer_survives_restart :
    (∀ s : AppState, (stop_stream s).audio_data = s.audio_data)
    ∧ (∀ s s' : AppState, start_stream s = .ok s' → s'.audio_data = s.audio_data)
    ∧ (∀ (s : AppState) (i : Nat) (s' : AppState),
        select_device s i = .ok s' → s'.audio_data = s.audio_data)
    ∧ (∀ buf samples : List ℚ, buf.length + samples.length ≤ capacity →
        appendAll capacity buf samples = buf ++ samples) := by
  refine ⟨stop_stream_audio, ?_, ?_, appendAll_no_evict capacity⟩
  · intro s s' h
    rw [start_ok_spec h]
  · intro s i s' h
    unfold select_device at h
    split at h
    · rw [start_ok_spec h]
      show (stop_stream { s with selected_device := i }).audio_data = s.audio_data
      rw [stop_stream_audio]
    · rw [((Outcome.ok.injEq _ _).mp h).symm]

theorem buffer_survives_restart_witness :
    appendAll capacity [(1 : ℚ), 2] [3] = [(1 : ℚ), 2] ++ [3] :=
  buffer_survives_restart.2.2.2 [(1 : ℚ), 2] [3] (by decide)

/-- C8: per callback block, exactly one sample per frame is appended — the
first channel's converted sample — in frame order: on a block of `frames`
interleaved frames of `c ≥ 1` channels each, the callback equals appending
the per-frame channel-0 conversions, in order; the other channels are
never read. -/
theorem callback_appends_channel0 (c : Nat) (frames : List (List NativeSample))
    (buf : List ℚ) (hc : 0 < c) (hf : ∀ f ∈ frames, f.length = c) :
    dataCallback c frames.flatten buf
      = appendAll capacity buf (frames.map (fun f => normalize f.headI)) := by
  rw [dataCallback_eq_appendAll, chunks_flatten c hc frames hf]

theorem callback_appends_channel0_witness :
    dataCallback 2
        ([[NativeSample.i16 3, NativeSample.i16 7],
          [NativeSample.f32 1, NativeSample.i16 9]].flatten) []
      = appendAll capacity []
          ([[NativeSample.i16 3, NativeSample.i16 7],
            [NativeSample.f32 1, NativeSample.i16 9]].map
            (fun f => normalize f.headI)) :=
  callback_appends_channel0 2
    [[NativeSample.i16 3, NativeSample.i16 7],
     [NativeSample.f32 1, NativeSample.i16 9]] [] (by decide) (by decide)

/-- C9: `stop_stream` is a total function (it never panics) and is
idempotent — stopping an already-stopped session changes nothing beyond
what one stop already did. -/
theorem stop_idempotent (s : AppState) :
    stop_stream (stop_stream s) = stop_stream s := by
  unfold stop_stream
  cases hst : s._stream <;> simp

/-- C10: the flag/stream coupling `is_playing = _stream.isSome` holds after
initialization and is preserved by `start_stream`, by `stop_stream`, and by
the device-switch stop-then-start in `select_device`. -/
theorem playing_iff_stream_retained :
    (∀ devs : List Device, playingMatchesStream (AppState.new devs))
    ∧ (∀ s s' : AppState, start_stream s = .ok s' → playingMatchesStream s')
    ∧ (∀ s : AppState, playingMatchesStream (stop_stream s))
    ∧ (∀ (s : AppState) (i : Nat) (s' : AppState), playingMatchesStream s →
        select_device s i = .ok s' → playingMatchesStream s') := by
  refine ⟨fun devs => rfl, ?_, ?_, ?_⟩
  · intro s s' h
    rw [start_ok_spec h]
    rfl
  · intro s
    unfold playingMatchesStream stop_stream
    cases s._stream <;> rfl
  · intro s i s' hp h
    unfold select_device at h
    split at h
    · rw [start_ok_spec h]
      rfl
    · have := ((Outcome.ok.injEq _ _).mp h)
      rw [← this]
      exact hp

theorem playing_iff_stream_retained_witness :
    playingMatchesStream switchedState :=
  playing_iff_stream_retained.2.2.2 activeState 1 switchedState
    (by unfold playingMatchesStream; decide) (by decide)

end FFTAnalyzer
